import Mathlib

/-!
A shallow embedding of the `simplemigrate` Go package (the migrator core in
`simplemigrate.go`): the `Migration` data model, `readMigrations`,
`validate`, `computeHash`, `listFiles` and the orchestrating `Migrate`
method, together with theorems settling the specification claims.

The external collaborators (the `DBDriver` store, the optional
`QueryValidator`, the filesystem) are modelled as explicit data:
a folder is a list of directory entries carrying their byte content,
the store's behaviour is a record of the results its methods return,
and every call `Migrate` makes to a collaborator is recorded in an
event trace so that claims about call ordering and about the batch
passed to `ApplyMigrations` are statable.

Go machine integers are modelled as unbounded `Int` (no claim exercises
64-bit overflow); byte strings are modelled as `List Nat` of byte values,
produced from Lean `String`s by UTF-8 encoding.
-/

namespace Simplemigrate

/-! ## Bytes and Go-style string helpers -/

/-- UTF-8 encoding of a single character, as byte values. -/
def utf8Char (c : Char) : List Nat :=
  let n := c.toNat
  if n < 128 then [n]
  else if n < 2048 then [192 + n / 64, 128 + n % 64]
  else if n < 65536 then [224 + n / 4096, 128 + (n / 64) % 64, 128 + n % 64]
  else [240 + n / 262144, 128 + (n / 4096) % 64, 128 + (n / 64) % 64, 128 + n % 64]

/-- The bytes of a string under UTF-8, as Go sees string contents. -/
def strBytes (s : String) : List Nat :=
  (s.toList.map utf8Char).flatten

/-- Whitespace as recognised by Go's `unicode.IsSpace` on the Latin-1 range:
`'\t'`, `'\n'`, `'\v'`, `'\f'`, `'\r'`, `' '`, U+0085, U+00A0.
(The higher Unicode White_Space code points are not modelled; no migration
content in the claims contains them.) -/
def isGoSpace (c : Char) : Bool :=
  c.toNat == 9 || c.toNat == 10 || c.toNat == 11 || c.toNat == 12 ||
  c.toNat == 13 || c.toNat == 32 || c.toNat == 133 || c.toNat == 160

/-- `bytes.TrimSpace`: drop leading and trailing whitespace. -/
def goTrimSpace (s : String) : String :=
  ((((s.toList.dropWhile isGoSpace).reverse).dropWhile isGoSpace).reverse).asString

/-- Go `strings.Split` on a non-empty separator, on character lists, with
fuel (the fuel is the length of the remaining input; it never runs out).
`acc` holds the characters of the current fragment, reversed. -/
def splitGoAux (sep : List Char) : Nat → List Char → List Char → List (List Char)
  | _, acc, [] => [acc.reverse]
  | 0, acc, s => [acc.reverse ++ s]
  | fuel + 1, acc, c :: rest =>
    if sep.isPrefixOf (c :: rest) then
      acc.reverse :: splitGoAux sep fuel [] ((c :: rest).drop sep.length)
    else
      splitGoAux sep fuel (c :: acc) rest

/-- Go `strings.Split s sep` for a non-empty `sep`: split around each
non-overlapping instance of `sep`, scanning left to right.  Always returns
at least one fragment (`Split "" sep = [""]`). -/
def splitGo (s sep : String) : List String :=
  (splitGoAux sep.toList s.toList.length [] s.toList).map List.asString

/-- The statement separator marker used by `readMigrations`. -/
def migrateNextMarker : String := "-- migrate:next"

/-- Accumulate the leading run of decimal digits of `cs` onto `acc`. -/
def digitsVal : Int → List Char → Int
  | acc, [] => acc
  | acc, c :: cs => if c.isDigit then digitsVal (acc * 10 + (Int.ofNat c.toNat - 48)) cs else acc

/-- Whether the list starts with a decimal digit. -/
def startsWithDigit : List Char → Bool
  | [] => false
  | c :: _ => c.isDigit

/-- Go `fmt.Sscanf(s, "%d", &v)`: skip leading whitespace, optional `+`/`-`
sign, then at least one decimal digit (else error `none`); digits are
accumulated and any trailing non-digit characters are ignored. -/
def goSscanfInt (s : String) : Option Int :=
  let cs := s.toList.dropWhile isGoSpace
  match cs with
  | '+' :: rest => if startsWithDigit rest then some (digitsVal 0 rest) else none
  | '-' :: rest => if startsWithDigit rest then some (-(digitsVal 0 rest)) else none
  | rest => if startsWithDigit rest then some (digitsVal 0 rest) else none

/-! ## SHA-256 over byte lists (crypto/sha256's `Sum256`) -/

/-- 2^32, the modulus of 32-bit words. -/
def M32 : Nat := 4294967296

/-- Addition modulo 2^32. -/
def add32 (a b : Nat) : Nat := (a + b) % M32

/-- Right rotation of a 32-bit word by `k` (0 < k < 32). -/
def rotr32 (k n : Nat) : Nat :=
  Nat.lor (n >>> k) ((Nat.shiftLeft (n % (Nat.pow 2 k)) (32 - k)) % M32)

/-- Bitwise complement within 32 bits. -/
def not32 (n : Nat) : Nat := Nat.xor n (M32 - 1)

/-- SHA-256 round constants. -/
def shaK : List Nat :=
  [1116352408, 1899447441, 3049323471, 3921009573, 961987163, 1508970993,
   2453635748, 2870763221, 3624381080, 310598401, 607225278, 1426881987,
   1925078388, 2162078206, 2614888103, 3248222580, 3835390401, 4022224774,
   264347078, 604807628, 770255983, 1249150122, 1555081692, 1996064986,
   2554220882, 2821834349, 2952996808, 3210313671, 3336571891, 3584528711,
   113926993, 338241895, 666307205, 773529912, 1294757372, 1396182291,
   1695183700, 1986661051, 2177026350, 2456956037, 2730485921, 2820302411,
   3259730800, 3345764771, 3516065817, 3600352804, 4094571909, 275423344,
   430227734, 506948616, 659060556, 883997877, 958139571, 1322822218,
   1537002063, 1747873779, 1955562222, 2024104815, 2227730452, 2361852424,
   2428436474, 2756734187, 3204031479, 3329325298]

/-- SHA-256 initial hash value. -/
def shaH0 : List Nat :=
  [1779033703, 3144134277, 1013904242, 2773480762, 1359893119, 2600822924,
   528734635, 1541459225]

/-- Message-schedule extension: append `count` further words to `w`. -/
def shaExtend : List Nat → Nat → List Nat
  | w, 0 => w
  | w, count + 1 =>
    let t := w.length
    let w15 := w.getD (t - 15) 0
    let w2 := w.getD (t - 2) 0
    let s0 := Nat.xor (rotr32 7 w15) (Nat.xor (rotr32 18 w15) (w15 >>> 3))
    let s1 := Nat.xor (rotr32 17 w2) (Nat.xor (rotr32 19 w2) (w2 >>> 10))
    shaExtend (w ++ [add32 (add32 (w.getD (t - 16) 0) s0) (add32 (w.getD (t - 7) 0) s1)]) count

/-- The eight 32-bit working variables of the compression function. -/
structure Sha8 where
  va : Nat
  vb : Nat
  vc : Nat
  vd : Nat
  ve : Nat
  vf : Nat
  vg : Nat
  vh : Nat
deriving Repr, DecidableEq

/-- One SHA-256 round with round constant `k` and schedule word `w`. -/
def shaRound (s : Sha8) (k w : Nat) : Sha8 :=
  let bigS1 := Nat.xor (rotr32 6 s.ve) (Nat.xor (rotr32 11 s.ve) (rotr32 25 s.ve))
  let ch := Nat.xor (Nat.land s.ve s.vf) (Nat.land (not32 s.ve) s.vg)
  let t1 := add32 (add32 s.vh bigS1) (add32 ch (add32 k w))
  let bigS0 := Nat.xor (rotr32 2 s.va) (Nat.xor (rotr32 13 s.va) (rotr32 22 s.va))
  let maj := Nat.xor (Nat.land s.va s.vb) (Nat.xor (Nat.land s.va s.vc) (Nat.land s.vb s.vc))
  let t2 := add32 bigS0 maj
  { va := add32 t1 t2, vb := s.va, vc := s.vb, vd := s.vc,
    ve := add32 s.vd t1, vf := s.ve, vg := s.vf, vh := s.vg }

/-- Run the 64 rounds over paired constants and schedule words. -/
def shaRounds : Sha8 → List (Nat × Nat) → Sha8
  | s, [] => s
  | s, (k, w) :: rest => shaRounds (shaRound s k w) rest

/-- Group bytes into big-endian 32-bit words. -/
def bytesToWords : List Nat → List Nat
  | b0 :: b1 :: b2 :: b3 :: rest =>
    (b0 * 16777216 + b1 * 65536 + b2 * 256 + b3) :: bytesToWords rest
  | _ => []

/-- Compress one 64-byte block into the running hash `h` (8 words). -/
def shaCompress (h : List Nat) (block : List Nat) : List Nat :=
  let w := shaExtend (bytesToWords block) 48
  let s0 : Sha8 := { va := h.getD 0 0, vb := h.getD 1 0, vc := h.getD 2 0, vd := h.getD 3 0,
                     ve := h.getD 4 0, vf := h.getD 5 0, vg := h.getD 6 0, vh := h.getD 7 0 }
  let s := shaRounds s0 (shaK.zip w)
  [add32 (h.getD 0 0) s.va, add32 (h.getD 1 0) s.vb, add32 (h.getD 2 0) s.vc,
   add32 (h.getD 3 0) s.vd, add32 (h.getD 4 0) s.ve, add32 (h.getD 5 0) s.vf,
   add32 (h.getD 6 0) s.vg, add32 (h.getD 7 0) s.vh]

/-- Split a byte list into 64-byte blocks (fuel is the list length). -/
def blocks64 : Nat → List Nat → List (List Nat)
  | _, [] => []
  | 0, l => [l]
  | fuel + 1, l => l.take 64 :: blocks64 fuel (l.drop 64)

/-- SHA-256 padding: a `0x80` byte, zeros to 56 mod 64, then the bit length
as an 8-byte big-endian integer. -/
def shaPad (msg : List Nat) : List Nat :=
  let len := msg.length
  let zeros := (56 + 64 - ((len + 1) % 64)) % 64
  let bits := len * 8
  msg ++ [128] ++ List.replicate zeros 0 ++
    [(bits >>> 56) % 256, (bits >>> 48) % 256, (bits >>> 40) % 256, (bits >>> 32) % 256,
     (bits >>> 24) % 256, (bits >>> 16) % 256, (bits >>> 8) % 256, bits % 256]

/-- Fold the compression function over all blocks. -/
def shaProcess : List Nat → List (List Nat) → List Nat
  | h, [] => h
  | h, b :: bs => shaProcess (shaCompress h b) bs

/-- Big-endian bytes of each 32-bit word of the final hash. -/
def wordsToBytes : List Nat → List Nat
  | [] => []
  | w :: rest => [(w >>> 24) % 256, (w >>> 16) % 256, (w >>> 8) % 256, w % 256] ++ wordsToBytes rest

/-- `sha256.Sum256`: the 32 digest bytes of a byte list. -/
def sha256 (msg : List Nat) : List Nat :=
  let padded := shaPad msg
  wordsToBytes (shaProcess shaH0 (blocks64 padded.length padded))

/-- Lowercase hexadecimal digit. -/
def hexDigit (n : Nat) : Char :=
  if n < 10 then Char.ofNat (48 + n) else Char.ofNat (87 + n)

/-- Lowercase hex encoding of a byte list (Go's `fmt.Sprintf("%x", ...)`). -/
def hexEncode : List Nat → List Char
  | [] => []
  | b :: rest => hexDigit (b / 16) :: hexDigit (b % 16) :: hexEncode rest

/-- `computeHash`: the lowercase hex encoding of the SHA-256 digest of the
byte content (source `computeHash`, `simplemigrate.go`). -/
def computeHash (b : List Nat) : String :=
  (hexEncode (sha256 b)).asString

/-! ## Data model -/

/-- A single migration (source struct `Migration`).  The `AppliedAt`
pointer field is omitted: the migrator logic never reads it. -/
structure Migration where
  version : Int
  fname : String
  statements : List String
  hash : String
deriving Repr, DecidableEq

/-- The error values the migrator produces or propagates.  The first three
correspond to `ErrInvalidMigrationFile`, `ErrMigrationFolder` and
`ErrInvalidQuery` wrapped with their message; `storeFailure` and
`fsFailure` stand for opaque collaborator errors surfaced verbatim. -/
inductive Err where
  | invalidMigrationFile (msg : String)
  | migrationFolder (msg : String)
  | invalidQuery (fname : String) (msg : String)
  | storeFailure (msg : String)
  | fsFailure (msg : String)
deriving Repr, DecidableEq

/-- A call `Migrate` makes to a collaborator, recorded in order:
the store's three methods, the read of the migration source, and one
`validateQuery` event per statement handed to the `QueryValidator`. -/
inductive Event where
  | createTable (table : String)
  | readSource
  | selectMigrations (table : String)
  | validateQuery (dialect : String) (query : String)
  | applyMigrations (table : String) (inTx : Bool) (migs : List Migration)
deriving Repr, DecidableEq

/-- A directory entry of the migrations folder: its name, whether it is a
subdirectory, and (for files) its byte content as a string. -/
structure Entry where
  ename : String
  isDir : Bool
  content : String
deriving Repr, DecidableEq

/-- The behaviour of the `DBDriver` store collaborator: its dialect and
the results its methods return on this run. -/
structure Driver where
  dialect : String
  createTableErr : Option Err
  selectResult : Except Err (List Migration)
  applyErr : Option Err

/-- The `Migrator` configuration: table name, migrations folder contents,
optional query validator (dialect → query → reported problem), and the
transaction flag. -/
structure Migrator where
  migrationsTable : String
  folder : List Entry
  qvalidator : Option (String → String → Option String)
  inTransaction : Bool

/-! ## readMigrations -/

/-- String suffix test on character lists (Go `strings.HasSuffix`). -/
def strEndsWith (s suffix : String) : Bool :=
  List.isPrefixOf suffix.toList.reverse s.toList.reverse

/-- Source `listFiles`: reject a subdirectory (`ErrMigrationFolder`) or a
name without the `.sql` extension (`ErrInvalidMigrationFile`); otherwise
collect the entry names in order. -/
def listFiles : List Entry → Except Err (List String)
  | [] => .ok []
  | e :: rest =>
    if e.isDir then
      .error (.migrationFolder "cannot contain a folder")
    else if !(strEndsWith e.ename ".sql") then
      .error (.invalidMigrationFile (e.ename ++ " must have .sql extension"))
    else
      match listFiles rest with
      | .error err => .error err
      | .ok files => .ok (e.ename :: files)

/-- `fs.ReadFile`: look the file up in the folder by name. -/
def readFileFS (folder : List Entry) (fname : String) : Except Err String :=
  match folder.find? (fun e => decide (e.ename = fname)) with
  | some e => .ok e.content
  | none => .error (.fsFailure fname)

/-- The per-file body of the `readMigrations` loop: locate the first `_`
(`strings.Index`), scan the version with `Sscanf "%d"`, reject version 0,
read and trim the content, hash it, and split it into statements on the
`-- migrate:next` marker. -/
def parseMigrationFile (folder : List Entry) (file : String) : Except Err Migration :=
  let pre := file.toList.takeWhile (fun c => decide (c ≠ '_'))
  if pre.length = file.toList.length then
    .error (.invalidMigrationFile (file ++ " must have a version"))
  else
    match goSscanfInt pre.asString with
    | none => .error (.invalidMigrationFile (file ++ " must have an integer version"))
    | some v =>
      if v = 0 then
        .error (.invalidMigrationFile (file ++ " must have a non-zero version"))
      else
        match readFileFS folder file with
        | .error e => .error e
        | .ok raw =>
          let data := goTrimSpace raw
          .ok { version := v, fname := file, hash := computeHash (strBytes data),
                statements := splitGo data migrateNextMarker }

/-- The `readMigrations` loop over the listed files, failing fast. -/
def readMigrationFiles (folder : List Entry) : List String → Except Err (List Migration)
  | [] => .ok []
  | f :: fs =>
    match parseMigrationFile folder f with
    | .error e => .error e
    | .ok mg =>
      match readMigrationFiles folder fs with
      | .error e => .error e
      | .ok rest => .ok (mg :: rest)

/-- Insert a migration into a version-sorted list. -/
def insertByVersion (x : Migration) : List Migration → List Migration
  | [] => [x]
  | y :: ys => if x.version < y.version then x :: y :: ys else y :: insertByVersion x ys

/-- `sort.Slice` by `Version` ascending (insertion sort; `sort.Slice` fixes
no order among equal versions, and equal versions are rejected right after
sorting, so the tie order is immaterial). -/
def sortByVersion : List Migration → List Migration
  | [] => []
  | x :: xs => insertByVersion x (sortByVersion xs)

/-- The step-by-one check of `readMigrations`: each version must exceed
the previous by exactly 1. -/
def checkSequentialFrom : Migration → List Migration → Option Err
  | _, [] => none
  | prev, x :: xs =>
    if x.version - prev.version ≠ 1 then
      some (.invalidMigrationFile ("migrations must have sequential versions (" ++
        prev.fname ++ " - " ++ x.fname ++ ")"))
    else checkSequentialFrom x xs

/-- The sequence validation of `readMigrations`: a non-empty sorted list
must start at version 1 and step by exactly 1. -/
def checkSequential : List Migration → Option Err
  | [] => none
  | first :: rest =>
    if first.version ≠ 1 then
      some (.invalidMigrationFile "first migration must have version 1")
    else checkSequentialFrom first rest

/-- Source `readMigrations`: list the folder, parse every file, sort by
version, and validate the version sequence. -/
def readMigrations (m : Migrator) : Except Err (List Migration) :=
  match listFiles m.folder with
  | .error e => .error e
  | .ok files =>
    match readMigrationFiles m.folder files with
    | .error e => .error e
    | .ok items =>
      let sorted := sortByVersion items
      match checkSequential sorted with
      | some e => .error e
      | none => .ok sorted

/-! ## validate and Migrate -/

/-- The validator loop of `validate`: call `ValidateQuery` once per
statement in order, recording each call; stop at the first problem,
wrapped as `ErrInvalidQuery` under the migration's file name. -/
def runValidator (v : String → String → Option String) (dialect fname : String) :
    List String → Option Err × List Event
  | [] => (none, [])
  | s :: rest =>
    match v dialect s with
    | some msg => (some (.invalidQuery fname msg), [.validateQuery dialect s])
    | none =>
      ((runValidator v dialect fname rest).1,
       .validateQuery dialect s :: (runValidator v dialect fname rest).2)

/-- Source `validate`: an empty statements slice is
`ErrInvalidMigrationFile`; otherwise, when a validator is configured, every
statement is checked with the store's dialect. -/
def validateMig (m : Migrator) (dialect : String) (mg : Migration) :
    Option Err × List Event :=
  if mg.statements.length = 0 then
    (some (.invalidMigrationFile (mg.fname ++ " is empty")), [])
  else
    match m.qvalidator with
    | none => (none, [])
    | some v => runValidator v dialect mg.fname mg.statements

/-- The validation loop of `Migrate` over the batch, failing fast. -/
def validateBatch (m : Migrator) (dialect : String) : List Migration → Option Err × List Event
  | [] => (none, [])
  | mg :: rest =>
    match validateMig m dialect mg with
    | (some e, evs) => (some e, evs)
    | (none, evs) =>
      ((validateBatch m dialect rest).1, evs ++ (validateBatch m dialect rest).2)

/-- The tail of `Migrate` after the consistency check (source lines
computing `toApply` onward): successful no-op on an empty suffix, else
validate the whole batch and hand it to `ApplyMigrations`. -/
def afterCheck (m : Migrator) (d : Driver) (toApply : List Migration) :
    Except Err Unit × List Event :=
  if toApply.length = 0 then (.ok (), [])
  else
    match validateBatch m d.dialect toApply with
    | (some e, evs) => (.error e, evs)
    | (none, evs) =>
      match d.applyErr with
      | some e => (.error e, evs ++ [.applyMigrations m.migrationsTable m.inTransaction toApply])
      | none => (.ok (), evs ++ [.applyMigrations m.migrationsTable m.inTransaction toApply])

/-- The per-index consistency loop of `Migrate` over the applied
migrations: version then hash must match the local migration at the same
index.  (The arm where local runs out first is unreachable: the caller has
already checked `len(local) ≥ len(applied)`.) -/
def checkSync : List Migration → List Migration → Option Err
  | [], _ => none
  | _ :: _, [] => none
  | a :: arest, l :: lrest =>
    if a.version ≠ l.version then
      some (.invalidMigrationFile "local migrations are not in sync with applied migrations")
    else if a.hash ≠ l.hash then
      some (.invalidMigrationFile "local migrations are not in sync with applied migrations")
    else checkSync arest lrest

/-- The trace of every run that reaches the consistency check: table
creation, the read of the migration source, and the select of applied
migrations, in the order `Migrate` performs them. -/
def evs0 (m : Migrator) : List Event :=
  [Event.createTable m.migrationsTable, Event.readSource,
   Event.selectMigrations m.migrationsTable]

/-- Source `Migrate`: create the tracking table, read local migrations,
select applied migrations, check that applied is a (version, hash)
consistent prefix of local, then validate and apply the remaining suffix.
Returns the result together with the trace of collaborator calls. -/
def Migrate (m : Migrator) (d : Driver) : Except Err Unit × List Event :=
  match d.createTableErr with
  | some e => (.error e, [.createTable m.migrationsTable])
  | none =>
    match readMigrations m with
    | .error e => (.error e, [.createTable m.migrationsTable, .readSource])
    | .ok localMigrations =>
      match d.selectResult with
      | .error e => (.error e, evs0 m)
      | .ok applied =>
        if localMigrations.length < applied.length then
          (.error (.invalidMigrationFile "local migrations are less than applied migrations"),
           evs0 m)
        else
          match checkSync applied localMigrations with
          | some e => (.error e, evs0 m)
          | none =>
            ((afterCheck m d (localMigrations.drop applied.length)).1,
             evs0 m ++ (afterCheck m d (localMigrations.drop applied.length)).2)

end Simplemigrate

deriving instance DecidableEq for Except

namespace Simplemigrate

/-! ## Helper lemmas -/

/-- Default migration value, for positional `getD` lookups. -/
def mdef : Migration := { version := 0, fname := "", statements := [], hash := "" }

/-- `checkSync` only ever reports the fixed out-of-sync message. -/
lemma checkSync_some : ∀ (a l : List Migration) (e : Err), checkSync a l = some e →
    e = .invalidMigrationFile "local migrations are not in sync with applied migrations"
  | [], _, _, h => by simp [checkSync] at h
  | _ :: _, [], _, h => by simp [checkSync] at h
  | a0 :: ar, l0 :: lr, e, h => by
    rw [checkSync] at h
    by_cases hv : a0.version = l0.version
    · by_cases hh : a0.hash = l0.hash
      · simp [hv, hh] at h
        exact checkSync_some ar lr e h
      · simp [hv, hh] at h
        exact h.symm
    · simp [hv] at h
      exact h.symm

/-- `checkSync` succeeds exactly when every common index agrees on version
and hash. -/
lemma checkSync_none_iff : ∀ (a l : List Migration), checkSync a l = none ↔
    ∀ i, i < a.length → i < l.length →
      (a.getD i mdef).version = (l.getD i mdef).version ∧
      (a.getD i mdef).hash = (l.getD i mdef).hash
  | [], l => by simp [checkSync]
  | a0 :: ar, [] => by simp [checkSync]
  | a0 :: ar, l0 :: lr => by
    have ih := checkSync_none_iff ar lr
    constructor
    · intro h i hi hl
      rw [checkSync] at h
      by_cases hv : a0.version = l0.version
      · by_cases hh : a0.hash = l0.hash
        · simp [hv, hh] at h
          cases i with
          | zero => simpa using And.intro hv hh
          | succ j => simpa using (ih.mp h) j (by simpa using hi) (by simpa using hl)
        · simp [hv, hh] at h
      · simp [hv] at h
    · intro h
      have h0 := h 0 (by simp) (by simp)
      simp at h0
      rw [checkSync]
      simp [h0.1, h0.2]
      exact ih.mpr fun i hi hl => by
        simpa using h (i + 1) (by simpa using hi) (by simpa using hl)

/-- Every problem the validator loop reports is wrapped as `InvalidQuery`
under the migration's file name. -/
lemma runValidator_fst_some (v : String → String → Option String) (dialect fname : String) :
    ∀ (ss : List String) (e : Err), (runValidator v dialect fname ss).1 = some e →
      ∃ msg, e = .invalidQuery fname msg
  | [], e, h => by simp [runValidator] at h
  | s :: rest, e, h => by
    rw [runValidator] at h
    cases hv : v dialect s with
    | some msg => simp [hv] at h; exact ⟨msg, h.symm⟩
    | none =>
      simp [hv] at h
      exact runValidator_fst_some v dialect fname rest e h

/-- The validator loop only emits `validateQuery` events, all at the given
dialect. -/
lemma runValidator_events (v : String → String → Option String) (dialect fname : String) :
    ∀ (ss : List String) (ev : Event), ev ∈ (runValidator v dialect fname ss).2 →
      ∃ q, ev = .validateQuery dialect q
  | [], ev, h => by simp [runValidator] at h
  | s :: rest, ev, h => by
    rw [runValidator] at h
    cases hv : v dialect s with
    | some msg => simp [hv] at h; exact ⟨s, h⟩
    | none =>
      simp [hv] at h
      cases h with
      | inl h => exact ⟨s, h⟩
      | inr h => exact runValidator_events v dialect fname rest ev h

/-- When the validator accepts every statement, the loop records exactly
one `validateQuery` call per statement, in order. -/
lemma runValidator_none_events (v : String → String → Option String) (dialect fname : String) :
    ∀ (ss : List String), (runValidator v dialect fname ss).1 = none →
      (runValidator v dialect fname ss).2 = ss.map (fun s => Event.validateQuery dialect s)
  | [], _ => by simp [runValidator]
  | s :: rest, h => by
    rw [runValidator] at h ⊢
    cases hv : v dialect s with
    | some msg => simp [hv] at h
    | none =>
      simp [hv] at h ⊢
      exact runValidator_none_events v dialect fname rest h

/-- A `validate` failure on a migration with at least one statement is an
`InvalidQuery` wrap (the empty-statements branch is not taken). -/
lemma validateMig_fst_some (m : Migrator) (dialect : String) (mg : Migration) (e : Err)
    (hne : mg.statements ≠ []) (h : (validateMig m dialect mg).1 = some e) :
    ∃ msg, e = .invalidQuery mg.fname msg := by
  rw [validateMig] at h
  have hlen : ¬ mg.statements.length = 0 := by simpa using hne
  rw [if_neg hlen] at h
  cases hq : m.qvalidator with
  | none => simp [hq] at h
  | some v =>
    rw [hq] at h
    exact runValidator_fst_some v dialect mg.fname mg.statements e h

/-- `validate` only emits `validateQuery` events at the store's dialect. -/
lemma validateMig_events (m : Migrator) (dialect : String) (mg : Migration) (ev : Event)
    (h : ev ∈ (validateMig m dialect mg).2) : ∃ q, ev = .validateQuery dialect q := by
  rw [validateMig] at h
  by_cases hlen : mg.statements.length = 0
  · simp [hlen] at h
  · rw [if_neg hlen] at h
    cases hq : m.qvalidator with
    | none => simp [hq] at h
    | some v =>
      rw [hq] at h
      exact runValidator_events v dialect mg.fname mg.statements ev h

/-- When a validator is configured and `validate` succeeds, it was called
once per statement, in order. -/
lemma validateMig_none_events (m : Migrator) (dialect : String) (mg : Migration)
    (v : String → String → Option String) (hq : m.qvalidator = some v)
    (h : (validateMig m dialect mg).1 = none) :
    (validateMig m dialect mg).2 = mg.statements.map (fun s => Event.validateQuery dialect s) := by
  rw [validateMig] at h ⊢
  by_cases hlen : mg.statements.length = 0
  · simp [hlen] at h
  · rw [if_neg hlen] at h ⊢
    rw [hq] at h ⊢
    exact runValidator_none_events v dialect mg.fname mg.statements h

/-- A batch-validation failure over migrations that all have at least one
statement is an `InvalidQuery` wrap. -/
lemma validateBatch_fst_some (m : Migrator) (dialect : String) :
    ∀ (migs : List Migration) (e : Err), (validateBatch m dialect migs).1 = some e →
      (∀ mg ∈ migs, mg.statements ≠ []) → ∃ fn msg, e = .invalidQuery fn msg
  | [], e, h, _ => by simp [validateBatch] at h
  | mg :: rest, e, h, hne => by
    rw [validateBatch] at h
    cases hm : validateMig m dialect mg with
    | mk r evs =>
      cases r with
      | some e0 =>
        rw [hm] at h
        simp at h
        have := validateMig_fst_some m dialect mg e0 (hne mg (by simp)) (by rw [hm])
        obtain ⟨msg, hmsg⟩ := this
        exact ⟨mg.fname, msg, by rw [← h]; exact hmsg⟩
      | none =>
        rw [hm] at h
        simp at h
        exact validateBatch_fst_some m dialect rest e h (fun x hx => hne x (by simp [hx]))

/-- Batch validation only emits `validateQuery` events at the store's
dialect. -/
lemma validateBatch_events (m : Migrator) (dialect : String) :
    ∀ (migs : List Migration) (ev : Event), ev ∈ (validateBatch m dialect migs).2 →
      ∃ q, ev = .validateQuery dialect q
  | [], ev, h => by simp [validateBatch] at h
  | mg :: rest, ev, h => by
    rw [validateBatch] at h
    cases hm : validateMig m dialect mg with
    | mk r evs =>
      cases r with
      | some e0 =>
        rw [hm] at h
        simp at h
        exact validateMig_events m dialect mg ev (by rw [hm]; exact h)
      | none =>
        rw [hm] at h
        simp at h
        cases h with
        | inl h => exact validateMig_events m dialect mg ev (by rw [hm]; exact h)
        | inr h => exact validateBatch_events m dialect rest ev h

/-- The per-statement events of a batch, one `validateQuery` call per
statement of each migration, in batch order.  (Specification-side
description of §4.3's "invoke it once per statement".) -/
def statementEvents (dialect : String) : List Migration → List Event
  | [] => []
  | mg :: rest =>
    mg.statements.map (fun s => Event.validateQuery dialect s) ++ statementEvents dialect rest

/-- When a validator is configured and the whole batch validates, the
event trace of batch validation is exactly one call per statement. -/
lemma validateBatch_none_events (m : Migrator) (dialect : String)
    (v : String → String → Option String) (hq : m.qvalidator = some v) :
    ∀ (migs : List Migration), (validateBatch m dialect migs).1 = none →
      (validateBatch m dialect migs).2 = statementEvents dialect migs
  | [], _ => by simp [validateBatch, statementEvents]
  | mg :: rest, h => by
    rw [validateBatch] at h ⊢
    rw [show validateMig m dialect mg =
      ((validateMig m dialect mg).1, (validateMig m dialect mg).2) from rfl] at h ⊢
    cases hm : (validateMig m dialect mg).1 with
    | some e0 => simp [hm] at h
    | none =>
      simp [hm] at h ⊢
      have hev := validateMig_none_events m dialect mg v hq hm
      rw [statementEvents, hev]
      simp [validateBatch_none_events m dialect v hq rest h]

/-- Membership in an insertion is membership in the parts. -/
lemma mem_insertByVersion (b x : Migration) :
    ∀ (l : List Migration), b ∈ insertByVersion x l ↔ b = x ∨ b ∈ l
  | [] => by simp [insertByVersion]
  | y :: ys => by
    rw [insertByVersion]
    by_cases hv : x.version < y.version
    · simp [hv]
    · simp [hv, mem_insertByVersion b x ys]
      tauto

/-- Sorting by version preserves the members. -/
lemma mem_sortByVersion (b : Migration) :
    ∀ (l : List Migration), b ∈ sortByVersion l ↔ b ∈ l
  | [] => by simp [sortByVersion]
  | x :: xs => by
    rw [sortByVersion, mem_insertByVersion, mem_sortByVersion b xs]
    simp

/-- Every migration produced by the read loop comes from parsing one of
the listed files. -/
lemma readMigrationFiles_ok_mem (folder : List Entry) :
    ∀ (files : List String) (items : List Migration) (mg : Migration),
      readMigrationFiles folder files = .ok items → mg ∈ items →
      ∃ f, f ∈ files ∧ parseMigrationFile folder f = .ok mg
  | [], items, mg, h, hmem => by
    simp [readMigrationFiles] at h
    rw [h] at hmem
    simp at hmem
  | f :: fs, items, mg, h, hmem => by
    rw [readMigrationFiles] at h
    cases hp : parseMigrationFile folder f with
    | error e => rw [hp] at h; simp at h
    | ok mg0 =>
      rw [hp] at h
      cases hr : readMigrationFiles folder fs with
      | error e => rw [hr] at h; simp at h
      | ok rest =>
        rw [hr] at h
        simp at h
        rw [← h] at hmem
        cases hmem with
        | head => exact ⟨f, by simp, hp⟩
        | tail _ hmem =>
          obtain ⟨g, hg, hgp⟩ := readMigrationFiles_ok_mem folder fs rest mg hr hmem
          exact ⟨g, by simp [hg], hgp⟩

/-- The shape of a successfully parsed migration file: its hash is the
digest of the trimmed content and its statements are the split of that
same trimmed content. -/
lemma parseMigrationFile_ok_shape (folder : List Entry) (file : String) (mg : Migration)
    (h : parseMigrationFile folder file = .ok mg) :
    ∃ raw v, readFileFS folder file = .ok raw ∧
      mg = { version := v, fname := file,
             hash := computeHash (strBytes (goTrimSpace raw)),
             statements := splitGo (goTrimSpace raw) migrateNextMarker } := by
  rw [parseMigrationFile] at h
  by_cases h1 : (file.toList.takeWhile (fun c => decide (c ≠ '_'))).length = file.toList.length
  · rw [if_pos h1] at h; simp at h
  · rw [if_neg h1] at h
    cases h2 : goSscanfInt (file.toList.takeWhile (fun c => decide (c ≠ '_'))).asString with
    | none => rw [h2] at h; simp at h
    | some v =>
      rw [h2] at h
      simp only [] at h
      by_cases h3 : v = 0
      · rw [if_pos h3] at h; simp at h
      · rw [if_neg h3] at h
        cases h4 : readFileFS folder file with
        | error e => rw [h4] at h; simp at h
        | ok raw =>
          rw [h4] at h
          simp at h
          exact ⟨raw, v, rfl, h.symm⟩

/-- The splitter never returns the empty list of fragments. -/
lemma splitGoAux_ne_nil (sep : List Char) :
    ∀ (fuel : Nat) (acc s : List Char), splitGoAux sep fuel acc s ≠ []
  | 0, acc, [] => by simp [splitGoAux]
  | 0, acc, c :: rest => by simp [splitGoAux]
  | fuel + 1, acc, [] => by simp [splitGoAux]
  | fuel + 1, acc, c :: rest => by
    rw [splitGoAux]
    by_cases hp : List.isPrefixOf sep (c :: rest) = true
    · simp [hp]
    · simp [hp]
      exact splitGoAux_ne_nil sep fuel (c :: acc) rest

/-- Splitting any string yields at least one fragment. -/
lemma splitGo_length_pos (s sep : String) : 1 ≤ (splitGo s sep).length := by
  rw [splitGo]
  have := splitGoAux_ne_nil sep.toList s.toList.length [] s.toList
  cases h : splitGoAux sep.toList s.toList.length [] s.toList with
  | nil => exact absurd h this
  | cons a l => simp

/-- If the step check passes from `prev`, the i-th later version is
`prev.version + (i + 1)`. -/
lemma checkSequentialFrom_none : ∀ (prev : Migration) (l : List Migration),
    checkSequentialFrom prev l = none →
    ∀ i, i < l.length → (l.getD i mdef).version = prev.version + (Int.ofNat i + 1)
  | _, [], _, i, hi => by simp at hi
  | prev, x :: xs, h, i, hi => by
    rw [checkSequentialFrom] at h
    by_cases hs : x.version - prev.version ≠ 1
    · simp [hs] at h
    · rw [if_neg (by simpa using hs)] at h
      push_neg at hs
      cases i with
      | zero => simp; omega
      | succ j =>
        have := checkSequentialFrom_none x xs h j (by simpa using hi)
        simp at this ⊢
        omega

/-- If the sequence check passes, the i-th migration (0-based) has version
exactly `i + 1`. -/
lemma checkSequential_none (l : List Migration) (h : checkSequential l = none) :
    ∀ i, i < l.length → (l.getD i mdef).version = Int.ofNat i + 1 := by
  intro i hi
  cases l with
  | nil => simp at hi
  | cons first rest =>
    rw [checkSequential] at h
    by_cases h1 : first.version ≠ 1
    · simp [h1] at h
    · rw [if_neg (by simpa using h1)] at h
      push_neg at h1
      cases i with
      | zero => simpa using h1
      | succ j =>
        have := checkSequentialFrom_none first rest h j (by simpa using hi)
        simp at this ⊢
        omega

/-- Inversion of a successful `readMigrations` run: the returned list is
the sorted parse of the folder listing, and it passed the sequence check. -/
lemma readMigrations_ok_inv (m : Migrator) (migs : List Migration)
    (h : readMigrations m = .ok migs) :
    ∃ files items, listFiles m.folder = .ok files ∧
      readMigrationFiles m.folder files = .ok items ∧
      migs = sortByVersion items ∧ checkSequential migs = none := by
  rw [readMigrations] at h
  cases h1 : listFiles m.folder with
  | error e => rw [h1] at h; simp at h
  | ok files =>
    rw [h1] at h
    simp only [] at h
    cases h2 : readMigrationFiles m.folder files with
    | error e => rw [h2] at h; simp at h
    | ok items =>
      rw [h2] at h
      simp only [] at h
      cases h3 : checkSequential (sortByVersion items) with
      | some e => rw [h3] at h; simp at h
      | none =>
        rw [h3] at h
        simp at h
        exact ⟨files, items, rfl, h2, h.symm, by rw [← h]; exact h3⟩

/-- `Migrate` when tracking-table creation fails: the error is returned
unchanged and the trace holds only that one call. -/
lemma Migrate_createErr (m : Migrator) (d : Driver) (e : Err)
    (h : d.createTableErr = some e) :
    Migrate m d = (.error e, [.createTable m.migrationsTable]) := by
  rw [Migrate, h]

/-- `Migrate` when reading the local migrations fails: the error is
returned after only the table creation and the source read. -/
lemma Migrate_readErr (m : Migrator) (d : Driver) (e : Err)
    (hc : d.createTableErr = none) (hr : readMigrations m = .error e) :
    Migrate m d = (.error e, [.createTable m.migrationsTable, .readSource]) := by
  rw [Migrate, hc, hr]

/-- Every file name a successful folder listing returns names an entry of
the folder. -/
lemma listFiles_ok_mem : ∀ (entries : List Entry) (files : List String),
    listFiles entries = .ok files → ∀ f ∈ files, ∃ en, en ∈ entries ∧ en.ename = f
  | [], files, h, f, hf => by
    simp [listFiles] at h
    rw [h] at hf
    simp at hf
  | e :: rest, files, h, f, hf => by
    rw [listFiles] at h
    by_cases hd : e.isDir = true
    · simp [hd] at h
    · rw [if_neg (by simpa using hd)] at h
      by_cases hsu : strEndsWith e.ename ".sql" = true
      · rw [if_neg (by simpa using hsu)] at h
        cases hrest : listFiles rest with
        | error err => rw [hrest] at h; simp at h
        | ok fs =>
          rw [hrest] at h
          simp at h
          rw [← h] at hf
          cases hf with
          | head => exact ⟨e, by simp, rfl⟩
          | tail _ hf =>
            obtain ⟨en, hen, hname⟩ := listFiles_ok_mem rest fs hrest f hf
            exact ⟨en, by simp [hen], hname⟩
      · rw [if_pos (by simpa using hsu)] at h
        simp at h

/-- A file named by the folder lookup exists, so reading it succeeds. -/
lemma readFileFS_ok_of_mem : ∀ (folder : List Entry) (f : String),
    (∃ en, en ∈ folder ∧ en.ename = f) → ∃ c, readFileFS folder f = .ok c
  | [], f, h => by simp at h
  | e0 :: rest, f, h => by
    by_cases he : e0.ename = f
    · exact ⟨e0.content, by rw [readFileFS, List.find?_cons_of_pos _ (by simp [he])]⟩
    · obtain ⟨en, hmem, hname⟩ := h
      have hrest : ∃ en, en ∈ rest ∧ en.ename = f := by
        cases hmem with
        | head => exact absurd hname he
        | tail _ hmem => exact ⟨en, hmem, hname⟩
      obtain ⟨c, hc⟩ := readFileFS_ok_of_mem rest f hrest
      refine ⟨c, ?_⟩
      rw [readFileFS, List.find?_cons_of_neg _ (by simp [he])]
      rw [readFileFS] at hc
      exact hc

/-- A malformed migration file name, in the three rejected shapes of the
source: no `_` separator at all, a prefix in which `Sscanf "%d"` finds no
integer, or a parsed version equal to zero. -/
def badName (file : String) : Prop :=
  (file.toList.takeWhile (fun c => decide (c ≠ '_'))).length = file.toList.length ∨
  goSscanfInt (file.toList.takeWhile (fun c => decide (c ≠ '_'))).asString = none ∨
  goSscanfInt (file.toList.takeWhile (fun c => decide (c ≠ '_'))).asString = some 0

instance (file : String) : Decidable (badName file) := by
  unfold badName
  infer_instance

/-- Parsing a malformed file name fails with `InvalidMigrationFile`. -/
lemma parseMigrationFile_badName (folder : List Entry) (file : String) (h : badName file) :
    ∃ msg, parseMigrationFile folder file = .error (.invalidMigrationFile msg) := by
  rw [parseMigrationFile]
  by_cases h1 : (file.toList.takeWhile (fun c => decide (c ≠ '_'))).length = file.toList.length
  · exact ⟨file ++ " must have a version", by rw [if_pos h1]⟩
  · rw [if_neg h1]
    cases h2 : goSscanfInt (file.toList.takeWhile (fun c => decide (c ≠ '_'))).asString with
    | none => exact ⟨file ++ " must have an integer version", rfl⟩
    | some v =>
      have hv : v = 0 := by
        rcases h with h | h | h
        · exact absurd h h1
        · rw [h2] at h; simp at h
        · rw [h2] at h; simpa using h
      exact ⟨file ++ " must have a non-zero version", by simp [hv]⟩

/-- When the file content is readable, parsing either succeeds or fails
with `InvalidMigrationFile` (the only other failure source is the file
read itself). -/
lemma parseMigrationFile_err_kind (folder : List Entry) (file : String)
    (hok : ∃ c, readFileFS folder file = .ok c) :
    (∃ mg, parseMigrationFile folder file = .ok mg) ∨
    (∃ msg, parseMigrationFile folder file = .error (.invalidMigrationFile msg)) := by
  rw [parseMigrationFile]
  by_cases h1 : (file.toList.takeWhile (fun c => decide (c ≠ '_'))).length = file.toList.length
  · exact Or.inr ⟨file ++ " must have a version", by rw [if_pos h1]⟩
  · rw [if_neg h1]
    cases h2 : goSscanfInt (file.toList.takeWhile (fun c => decide (c ≠ '_'))).asString with
    | none => exact Or.inr ⟨file ++ " must have an integer version", rfl⟩
    | some v =>
      simp only []
      by_cases h3 : v = 0
      · exact Or.inr ⟨file ++ " must have a non-zero version", by rw [if_pos h3]⟩
      · rw [if_neg h3]
        obtain ⟨c, hc⟩ := hok
        rw [hc]
        exact Or.inl ⟨_, rfl⟩

/-- If some listed file has a malformed name, the read loop fails with
`InvalidMigrationFile` (assuming every listed file is readable). -/
lemma readMigrationFiles_err_of_badName (folder : List Entry) :
    ∀ (files : List String) (f0 : String),
      (∀ f ∈ files, ∃ c, readFileFS folder f = .ok c) → f0 ∈ files → badName f0 →
      ∃ msg, readMigrationFiles folder files = .error (.invalidMigrationFile msg)
  | [], f0, _, hmem, _ => by simp at hmem
  | g :: gs, f0, hread, hmem, hbad => by
    rw [readMigrationFiles]
    cases hp : parseMigrationFile folder g with
    | error e =>
      rcases parseMigrationFile_err_kind folder g (hread g (by simp)) with ⟨mg, hmg⟩ | ⟨msg, hmsg⟩
      · rw [hp] at hmg; simp at hmg
      · rw [hp] at hmsg
        simp at hmsg
        exact ⟨msg, by rw [hmsg]⟩
    | ok mg =>
      have hf0 : f0 ∈ gs := by
        cases hmem with
        | head =>
          obtain ⟨msg, hmsg⟩ := parseMigrationFile_badName folder g hbad
          rw [hp] at hmsg
          simp at hmsg
        | tail _ hmem => exact hmem
      obtain ⟨msg, hmsg⟩ :=
        readMigrationFiles_err_of_badName folder gs f0
          (fun f hf => hread f (by simp [hf])) hf0 hbad
      rw [hmsg]
      exact ⟨msg, rfl⟩

/-- Every migration a successful `readMigrations` returns has at least one
statement (splitting always yields a fragment). -/
lemma readMigrations_ok_statements (m : Migrator) (migs : List Migration)
    (h : readMigrations m = .ok migs) : ∀ mg ∈ migs, mg.statements ≠ [] := by
  intro mg hmem
  obtain ⟨files, items, _, hrf, hsort, _⟩ := readMigrations_ok_inv m migs h
  rw [hsort] at hmem
  rw [mem_sortByVersion] at hmem
  obtain ⟨f, _, hp⟩ := readMigrationFiles_ok_mem m.folder files items mg hrf hmem
  obtain ⟨raw, v, _, hshape⟩ := parseMigrationFile_ok_shape m.folder f mg hp
  rw [hshape]
  simp only []
  have := splitGo_length_pos (goTrimSpace raw) migrateNextMarker
  intro hnil
  rw [hnil] at this
  simp at this

/-- `afterCheck` of the empty suffix: successful no-op, no calls. -/
lemma afterCheck_nil (m : Migrator) (d : Driver) : afterCheck m d [] = (.ok (), []) := by
  simp [afterCheck]

/-- `afterCheck` when batch validation fails: the error is returned and no
`applyMigrations` call happens. -/
lemma afterCheck_valErr (m : Migrator) (d : Driver) (toApply : List Migration) (e : Err)
    (hne : toApply ≠ []) (hv : (validateBatch m d.dialect toApply).1 = some e) :
    afterCheck m d toApply = (.error e, (validateBatch m d.dialect toApply).2) := by
  rw [afterCheck, if_neg (by simpa using hne)]
  rw [show validateBatch m d.dialect toApply =
    ((validateBatch m d.dialect toApply).1, (validateBatch m d.dialect toApply).2) from rfl]
  rw [hv]

/-- `afterCheck` when batch validation succeeds: the whole batch goes to
`applyMigrations` after all validation events, and the store's result is
returned. -/
lemma afterCheck_valOk (m : Migrator) (d : Driver) (toApply : List Migration)
    (hne : toApply ≠ []) (hv : (validateBatch m d.dialect toApply).1 = none) :
    afterCheck m d toApply =
      ((match d.applyErr with | some e => .error e | none => .ok ()),
       (validateBatch m d.dialect toApply).2 ++
         [.applyMigrations m.migrationsTable m.inTransaction toApply]) := by
  rw [afterCheck, if_neg (by simpa using hne)]
  rw [show validateBatch m d.dialect toApply =
    ((validateBatch m d.dialect toApply).1, (validateBatch m d.dialect toApply).2) from rfl]
  rw [hv]
  cases d.applyErr <;> rfl

/-- `Migrate` past the three collaborator reads, as a function of the
length check and the sync check. -/
lemma Migrate_core (m : Migrator) (d : Driver) (localM applied : List Migration)
    (hc : d.createTableErr = none) (hr : readMigrations m = .ok localM)
    (hs : d.selectResult = .ok applied) :
    Migrate m d =
      if localM.length < applied.length then
        (.error (.invalidMigrationFile "local migrations are less than applied migrations"),
         evs0 m)
      else
        match checkSync applied localM with
        | some e => (.error e, evs0 m)
        | none =>
          ((afterCheck m d (localM.drop applied.length)).1,
           evs0 m ++ (afterCheck m d (localM.drop applied.length)).2) := by
  rw [Migrate, hc, hr, hs]

end Simplemigrate

namespace Simplemigrate

/-! ## Claim theorems -/

/-- **C8**: every error from the store's `createMigrationsTable` is
returned by `Migrate` unchanged, and the trace holds only that one
collaborator call — the migration source, the store's other methods and
the validator are never consulted in that run. -/
theorem claim_C8_create_table_error (m : Migrator) (d : Driver) (e : Err)
    (h : d.createTableErr = some e) :
    Migrate m d = (.error e, [.createTable m.migrationsTable]) :=
  Migrate_createErr m d e h

/-- Concrete migrator for the C8 witness. -/
def c8m : Migrator :=
  { migrationsTable := "schema_migrations", folder := [], qvalidator := none,
    inTransaction := false }

/-- Concrete store behaviour for the C8 witness: table creation fails. -/
def c8d : Driver :=
  { dialect := "sqlite", createTableErr := some (.storeFailure "connection refused"),
    selectResult := .ok [], applyErr := none }

theorem claim_C8_witness :
    c8d.createTableErr = some (Err.storeFailure "connection refused") ∧
    Migrate c8m c8d =
      (.error (.storeFailure "connection refused"), [.createTable "schema_migrations"]) :=
  ⟨rfl, claim_C8_create_table_error c8m c8d (.storeFailure "connection refused") rfl⟩

/-- **C9**: in every list `readMigrations` returns, the i-th migration
(0-based) has version exactly `i + 1`; hence all versions are positive,
even though the per-file scanner itself accepts a negative integer
prefix (e.g. `goSscanfInt "-3" = some (-3)`). -/
theorem claim_C9_versions_positional (m : Migrator) (migs : List Migration)
    (h : readMigrations m = .ok migs) :
    (∀ i, i < migs.length → (migs.getD i mdef).version = Int.ofNat i + 1) ∧
    (∀ mg ∈ migs, 0 < mg.version) ∧
    goSscanfInt "-3" = some (-3) := by
  obtain ⟨files, items, hl, hrf, hsort, hseq⟩ := readMigrations_ok_inv m migs h
  refine ⟨checkSequential_none migs hseq, ?_, by decide⟩
  intro mg hmem
  obtain ⟨i, hi, hget⟩ := List.mem_iff_getElem.mp hmem
  have h1 := checkSequential_none migs hseq i hi
  rw [List.getD_eq_getElem migs mdef hi] at h1
  rw [hget] at h1
  simp only [Int.ofNat_eq_natCast] at h1
  omega

/-- Concrete migrator for the C9 witness: one valid migration file. -/
def c9m : Migrator :=
  { migrationsTable := "schema_migrations",
    folder := [{ ename := "1_a.sql", isDir := false, content := "SELECT 9;" }],
    qvalidator := none, inTransaction := false }

/-- The migration list `readMigrations` produces for `c9m`. -/
def c9local : List Migration :=
  [{ version := 1, fname := "1_a.sql", statements := ["SELECT 9;"],
     hash := computeHash (strBytes "SELECT 9;") }]

theorem claim_C9_witness :
    (∀ i, i < c9local.length → (c9local.getD i mdef).version = Int.ofNat i + 1) ∧
    (∀ mg ∈ c9local, 0 < mg.version) ∧
    goSscanfInt "-3" = some (-3) :=
  claim_C9_versions_positional c9m c9local (by decide)

/-- **C10**: every migration `readMigrations` returns has at least one
statement (splitting on the marker always yields a fragment — in
particular `splitGo "" marker = [""]`), so the empty-statements error
branch of `validate` is unreachable for them: a `validate` failure on such
a migration can only be an `InvalidQuery` wrap; and a file whose trimmed
content is empty parses to the single empty statement. -/
theorem claim_C10_statements_nonempty (m : Migrator) (migs : List Migration)
    (h : readMigrations m = .ok migs) :
    (∀ mg ∈ migs, 1 ≤ mg.statements.length) ∧
    (∀ mg ∈ migs, ∀ (mm : Migrator) (dialect : String) (e : Err),
      (validateMig mm dialect mg).1 = some e → ∃ msg, e = .invalidQuery mg.fname msg) ∧
    splitGo "" migrateNextMarker = [""] ∧
    (∀ (folder : List Entry) (file : String) (mg : Migration) (raw : String),
      parseMigrationFile folder file = .ok mg → readFileFS folder file = .ok raw →
      goTrimSpace raw = "" → mg.statements = [""]) := by
  have hne := readMigrations_ok_statements m migs h
  refine ⟨?_, ?_, by decide, ?_⟩
  · intro mg hmem
    cases hst : mg.statements with
    | nil => exact absurd hst (hne mg hmem)
    | cons a l => simp
  · intro mg hmem mm dialect e hv
    exact validateMig_fst_some mm dialect mg e (hne mg hmem) hv
  · intro folder file mg raw hp hread hws
    obtain ⟨raw2, v, hread2, hshape⟩ := parseMigrationFile_ok_shape folder file mg hp
    rw [hread] at hread2
    have hraw : raw2 = raw := by
      cases hread2
      rfl
    rw [hshape, hraw, hws]
    show splitGo "" migrateNextMarker = [""]
    decide

/-- Concrete migrator for the C10 witness: one whitespace-only migration
file alongside a normal one. -/
def c10m : Migrator :=
  { migrationsTable := "schema_migrations",
    folder := [{ ename := "1_w.sql", isDir := false, content := " \n\t " }],
    qvalidator := none, inTransaction := false }

/-- The migration list `readMigrations` produces for `c10m`: the
whitespace-only file parses to the single empty statement. -/
def c10local : List Migration :=
  [{ version := 1, fname := "1_w.sql", statements := [""],
     hash := computeHash (strBytes "") }]

theorem claim_C10_witness :
    (∀ mg ∈ c10local, 1 ≤ mg.statements.length) ∧
    (∀ mg ∈ c10local, ∀ (mm : Migrator) (dialect : String) (e : Err),
      (validateMig mm dialect mg).1 = some e → ∃ msg, e = .invalidQuery mg.fname msg) ∧
    splitGo "" migrateNextMarker = [""] ∧
    (∀ (folder : List Entry) (file : String) (mg : Migration) (raw : String),
      parseMigrationFile folder file = .ok mg → readFileFS folder file = .ok raw →
      goTrimSpace raw = "" → mg.statements = [""]) :=
  claim_C10_statements_nonempty c10m c10local (by decide)

/-- **C6**: the hash of every parsed migration is `computeHash` — the
lowercase hex SHA-256 digest — of the whitespace-trimmed raw file content
(computed on the content as a whole, before statement splitting), and on
the spec's demo content the digest is the expected constant.  Hashing is a
pure function of the bytes, so identical input bytes yield identical
hashes by construction. -/
theorem claim_C6_content_hash (folder : List Entry) (file : String) (mg : Migration)
    (h : parseMigrationFile folder file = .ok mg) :
    (∃ raw, readFileFS folder file = .ok raw ∧
      mg.hash = computeHash (strBytes (goTrimSpace raw))) ∧
    computeHash (strBytes "CREATE TABLE demo (id INT NOT NULL);") =
      "5b57bc7ecd6c47d492b2587471ff82890ca185f405f089d5aaaf88519a2974f2" := by
  refine ⟨?_, by decide⟩
  obtain ⟨raw, v, hread, hshape⟩ := parseMigrationFile_ok_shape folder file mg h
  exact ⟨raw, hread, by rw [hshape]⟩

/-- The spec's demo folder: `1_demo.sql` with the demo `CREATE TABLE`. -/
def demoFolder : List Entry :=
  [{ ename := "1_demo.sql", isDir := false,
     content := "CREATE TABLE demo (id INT NOT NULL);" }]

/-- The migration parsed from the demo file. -/
def demoMig : Migration :=
  { version := 1, fname := "1_demo.sql",
    statements := ["CREATE TABLE demo (id INT NOT NULL);"],
    hash := computeHash (strBytes "CREATE TABLE demo (id INT NOT NULL);") }

theorem claim_C6_witness :
    (∃ raw, readFileFS demoFolder "1_demo.sql" = .ok raw ∧
      demoMig.hash = computeHash (strBytes (goTrimSpace raw))) ∧
    computeHash (strBytes "CREATE TABLE demo (id INT NOT NULL);") =
      "5b57bc7ecd6c47d492b2587471ff82890ca185f405f089d5aaaf88519a2974f2" :=
  claim_C6_content_hash demoFolder "1_demo.sql" demoMig (by decide)

/-- The fixed message of the length regression error. -/
def lenErrMsg : String := "local migrations are less than applied migrations"

/-- The fixed message of the prefix divergence error. -/
def syncErrMsg : String := "local migrations are not in sync with applied migrations"

/-- **C1**: with the three collaborator reads succeeding, `Migrate`
returns `InvalidMigrationFile` when the local list is shorter than the
applied list, or when some applied index disagrees with the local list on
version or hash; when the length check and every per-index comparison
succeed, `Migrate` proceeds past the consistency check and its outcome is
exactly that of the post-check phase (`afterCheck`) on the remaining
suffix. -/
theorem claim_C1_consistency_check (m : Migrator) (d : Driver)
    (localM applied : List Migration)
    (hc : d.createTableErr = none) (hr : readMigrations m = .ok localM)
    (hs : d.selectResult = .ok applied) :
    (localM.length < applied.length →
      Migrate m d = (.error (.invalidMigrationFile lenErrMsg), evs0 m)) ∧
    (applied.length ≤ localM.length →
      (∃ i, i < applied.length ∧
        ((applied.getD i mdef).version ≠ (localM.getD i mdef).version ∨
         (applied.getD i mdef).hash ≠ (localM.getD i mdef).hash)) →
      Migrate m d = (.error (.invalidMigrationFile syncErrMsg), evs0 m)) ∧
    (applied.length ≤ localM.length →
      (∀ i, i < applied.length → i < localM.length →
        (applied.getD i mdef).version = (localM.getD i mdef).version ∧
        (applied.getD i mdef).hash = (localM.getD i mdef).hash) →
      Migrate m d = ((afterCheck m d (localM.drop applied.length)).1,
        evs0 m ++ (afterCheck m d (localM.drop applied.length)).2)) := by
  have hcore := Migrate_core m d localM applied hc hr hs
  refine ⟨?_, ?_, ?_⟩
  · intro hlen
    rw [hcore, if_pos hlen]
    rfl
  · rintro hle ⟨i, hi, hmm⟩
    rw [hcore, if_neg (by omega)]
    have hnone : checkSync applied localM ≠ none := by
      intro hn
      have := (checkSync_none_iff applied localM).mp hn i hi (by omega)
      tauto
    cases hcs : checkSync applied localM with
    | none => exact absurd hcs hnone
    | some e =>
      simp only []
      rw [checkSync_some applied localM e hcs]
      rfl
  · intro hle hall
    have hnone : checkSync applied localM = none :=
      (checkSync_none_iff applied localM).mpr hall
    rw [hcore, if_neg (by omega), hnone]

/-- Concrete migrator for the C1 witness: one local migration. -/
def c1m : Migrator :=
  { migrationsTable := "schema_migrations",
    folder := [{ ename := "1_a.sql", isDir := false, content := "SELECT 1;" }],
    qvalidator := none, inTransaction := false }

/-- The local migration list of `c1m`. -/
def c1local : List Migration :=
  [{ version := 1, fname := "1_a.sql", statements := ["SELECT 1;"],
     hash := computeHash (strBytes "SELECT 1;") }]

/-- Applied history that diverges from `c1local` in the hash at index 0. -/
def c1applied : List Migration :=
  [{ version := 1, fname := "1_a.sql", statements := [],
     hash := "0000000000000000000000000000000000000000000000000000000000000000" }]

/-- Store behaviour for the C1 witness: reports the diverged history. -/
def c1d : Driver :=
  { dialect := "sqlite", createTableErr := none, selectResult := .ok c1applied,
    applyErr := none }

theorem claim_C1_witness :
    Migrate c1m c1d = (.error (.invalidMigrationFile syncErrMsg), evs0 c1m) :=
  (claim_C1_consistency_check c1m c1d c1local c1applied rfl (by decide) rfl).2.1
    (by decide) ⟨0, by decide, by right; decide⟩

/-- **C2**: when applied is a (version, hash)-consistent prefix of local,
any batch `Migrate` hands to `ApplyMigrations` is exactly the local list
with its first `len(applied)` entries removed (with the configured table
and transaction flag); and when that suffix is empty — applied equals
local in length — `Migrate` returns success with no `ApplyMigrations`
call in its trace. -/
theorem claim_C2_apply_batch (m : Migrator) (d : Driver)
    (localM applied : List Migration)
    (hc : d.createTableErr = none) (hr : readMigrations m = .ok localM)
    (hs : d.selectResult = .ok applied)
    (hle : applied.length ≤ localM.length)
    (hall : ∀ i, i < applied.length → i < localM.length →
      (applied.getD i mdef).version = (localM.getD i mdef).version ∧
      (applied.getD i mdef).hash = (localM.getD i mdef).hash) :
    (∀ t tx b, Event.applyMigrations t tx b ∈ (Migrate m d).2 →
      t = m.migrationsTable ∧ tx = m.inTransaction ∧ b = localM.drop applied.length) ∧
    (applied.length = localM.length → Migrate m d = (.ok (), evs0 m)) := by
  have hnone : checkSync applied localM = none :=
    (checkSync_none_iff applied localM).mpr hall
  have hcore := Migrate_core m d localM applied hc hr hs
  rw [if_neg (by omega), hnone] at hcore
  constructor
  · intro t tx b hmem
    rw [hcore] at hmem
    simp only [List.mem_append] at hmem
    rcases hmem with hmem | hmem
    · simp [evs0] at hmem
    · by_cases hnil : localM.drop applied.length = []
      · rw [hnil, afterCheck_nil] at hmem
        simp at hmem
      · cases hv : (validateBatch m d.dialect (localM.drop applied.length)).1 with
        | some e =>
          rw [afterCheck_valErr m d (localM.drop applied.length) e hnil hv] at hmem
          obtain ⟨q, hq⟩ := validateBatch_events m d.dialect (localM.drop applied.length) _ hmem
          simp at hq
        | none =>
          rw [afterCheck_valOk m d (localM.drop applied.length) hnil hv] at hmem
          simp only [List.mem_append] at hmem
          rcases hmem with hmem | hmem
          · obtain ⟨q, hq⟩ :=
              validateBatch_events m d.dialect (localM.drop applied.length) _ hmem
            simp at hq
          · simp at hmem
            exact ⟨hmem.1, hmem.2.1, hmem.2.2⟩
  · intro heq
    have hnil : localM.drop applied.length = [] := by
      rw [heq]
      exact List.drop_length localM
    rw [hcore, hnil, afterCheck_nil]
    simp

/-- Concrete migrator for the C2 witness: two local migrations. -/
def c2m : Migrator :=
  { migrationsTable := "schema_migrations",
    folder := [{ ename := "1_a.sql", isDir := false, content := "SELECT 1;" },
               { ename := "2_b.sql", isDir := false, content := "SELECT 2;" }],
    qvalidator := none, inTransaction := false }

/-- The local migration list of `c2m`. -/
def c2local : List Migration :=
  [{ version := 1, fname := "1_a.sql", statements := ["SELECT 1;"],
     hash := computeHash (strBytes "SELECT 1;") },
   { version := 2, fname := "2_b.sql", statements := ["SELECT 2;"],
     hash := computeHash (strBytes "SELECT 2;") }]

/-- Applied history matching the first local migration. -/
def c2applied : List Migration := [c2local.getD 0 mdef]

/-- Store behaviour for the C2 witness. -/
def c2d : Driver :=
  { dialect := "sqlite", createTableErr := none, selectResult := .ok c2applied,
    applyErr := none }

theorem claim_C2_witness :
    (∀ t tx b, Event.applyMigrations t tx b ∈ (Migrate c2m c2d).2 →
      t = c2m.migrationsTable ∧ tx = c2m.inTransaction ∧
      b = c2local.drop c2applied.length) ∧
    (c2applied.length = c2local.length → Migrate c2m c2d = (.ok (), evs0 c2m)) :=
  claim_C2_apply_batch c2m c2d c2local c2applied rfl (by decide) rfl
    (by decide) (by decide)

/-- Concrete migrator with a single whitespace-only migration file. -/
def c3m : Migrator :=
  { migrationsTable := "schema_migrations",
    folder := [{ ename := "1_a.sql", isDir := false, content := "  \n\t " }],
    qvalidator := none, inTransaction := false }

/-- Store behaviour for the C3 counterexample: everything succeeds. -/
def c3d : Driver :=
  { dialect := "sqlite", createTableErr := none, selectResult := .ok [], applyErr := none }

/-- **C3 counterexample**: a whitespace-only migration file is NOT
rejected — `Migrate` succeeds on it (the claim demands an
`InvalidMigrationFile` failure), and the file parses to the single empty
statement rather than to an empty statements list. -/
theorem claim_C3_counterexample :
    (Migrate c3m c3d).1 = Except.ok () ∧
    readMigrations c3m = .ok
      [{ version := 1, fname := "1_a.sql", statements := [""],
         hash := "e3b0c44298fc1c149afbf4c8996fb92427ae41e4649b934ca495991b7852b855" }] := by
  constructor
  · decide
  · decide

/-- **C3 amended**: an empty or whitespace-only migration file is not an
error — it parses to the single empty statement `[""]`, so the statements
sequence of every migration that reaches application is non-empty (length
one), and `validate` never reports such a migration as empty. -/
theorem claim_C3_amended_empty_file (folder : List Entry) (file : String)
    (mg : Migration) (raw : String)
    (h : parseMigrationFile folder file = .ok mg)
    (hread : readFileFS folder file = .ok raw)
    (hws : goTrimSpace raw = "") :
    mg.statements = [""] ∧ mg.statements ≠ [] ∧
    ∀ (mm : Migrator) (dialect : String),
      (validateMig mm dialect mg).1 ≠
        some (.invalidMigrationFile (mg.fname ++ " is empty")) := by
  obtain ⟨raw2, v, hread2, hshape⟩ := parseMigrationFile_ok_shape folder file mg h
  rw [hread] at hread2
  have hraw : raw2 = raw := by
    cases hread2
    rfl
  have hst : mg.statements = [""] := by
    rw [hshape, hraw, hws]
    show splitGo "" migrateNextMarker = [""]
    decide
  refine ⟨hst, by rw [hst]; simp, ?_⟩
  intro mm dialect heq
  obtain ⟨msg, hmsg⟩ :=
    validateMig_fst_some mm dialect mg _ (by rw [hst]; simp) heq
  simp at hmsg

theorem claim_C3_witness :
    ({ version := 1, fname := "1_a.sql", statements := [""],
       hash := computeHash (strBytes "") } : Migration).statements = [""] ∧
    ({ version := 1, fname := "1_a.sql", statements := [""],
       hash := computeHash (strBytes "") } : Migration).statements ≠ [] ∧
    ∀ (mm : Migrator) (dialect : String),
      (validateMig mm dialect
        { version := 1, fname := "1_a.sql", statements := [""],
          hash := computeHash (strBytes "") }).1 ≠
        some (.invalidMigrationFile ("1_a.sql" ++ " is empty")) :=
  claim_C3_amended_empty_file c3m.folder "1_a.sql"
    { version := 1, fname := "1_a.sql", statements := [""],
      hash := computeHash (strBytes "") }
    "  \n\t " (by decide) (by decide) (by decide)

/-- Concrete migrator whose local set has a version gap (1 then 3). -/
def c4m : Migrator :=
  { migrationsTable := "schema_migrations",
    folder := [{ ename := "1_x.sql", isDir := false, content := "SELECT 1;" },
               { ename := "3_y.sql", isDir := false, content := "SELECT 3;" }],
    qvalidator := none, inTransaction := false }

/-- Store behaviour for the C4 counterexample: everything succeeds. -/
def c4d : Driver :=
  { dialect := "sqlite", createTableErr := none, selectResult := .ok [], applyErr := none }

/-- **C4 counterexample**: a version gap IS rejected with
`InvalidMigrationFile`, but not before any database interaction — the
trace of the run contains the tracking-table creation call, which `Migrate`
performs before reading the local migration set. -/
theorem claim_C4_counterexample :
    Migrate c4m c4d =
      (.error (.invalidMigrationFile
        "migrations must have sequential versions (1_x.sql - 3_y.sql)"),
       [.createTable "schema_migrations", .readSource]) ∧
    Event.createTable "schema_migrations" ∈ (Migrate c4m c4d).2 := by
  constructor
  · decide
  · decide

/-- **C4 amended**: whenever reading the local migration set fails — as it
does on a version gap — `Migrate` returns that error with the
tracking-table creation as the only store call performed: the trace shows
no `SelectMigrations`, no `ApplyMigrations` and no validator call. -/
theorem claim_C4_amended_gap_rejection (m : Migrator) (d : Driver) (e : Err)
    (hc : d.createTableErr = none) (hr : readMigrations m = .error e) :
    Migrate m d = (.error e, [.createTable m.migrationsTable, .readSource]) ∧
    (∀ t, Event.selectMigrations t ∉ (Migrate m d).2) ∧
    (∀ t tx b, Event.applyMigrations t tx b ∉ (Migrate m d).2) ∧
    (∀ dq q, Event.validateQuery dq q ∉ (Migrate m d).2) := by
  have h := Migrate_readErr m d e hc hr
  refine ⟨h, ?_, ?_, ?_⟩ <;> (intros; rw [h]; simp)

theorem claim_C4_witness :
    Migrate c4m c4d =
      (.error (.invalidMigrationFile
        "migrations must have sequential versions (1_x.sql - 3_y.sql)"),
       [.createTable c4m.migrationsTable, .readSource]) ∧
    (∀ t, Event.selectMigrations t ∉ (Migrate c4m c4d).2) ∧
    (∀ t tx b, Event.applyMigrations t tx b ∉ (Migrate c4m c4d).2) ∧
    (∀ dq q, Event.validateQuery dq q ∉ (Migrate c4m c4d).2) :=
  claim_C4_amended_gap_rejection c4m c4d
    (.invalidMigrationFile "migrations must have sequential versions (1_x.sql - 3_y.sql)")
    rfl (by decide)

/-- Concrete migrator whose only file has prefix `1ab` — not an integer,
but beginning with one. -/
def c5m : Migrator :=
  { migrationsTable := "schema_migrations",
    folder := [{ ename := "1ab_x.sql", isDir := false, content := "SELECT 1;" }],
    qvalidator := none, inTransaction := false }

/-- **C5 counterexample**: the prefix before the first `_` of
`1ab_x.sql` is `1ab`, which is not an integer, yet `readMigrations`
accepts the file (with version 1, the leading integer of the prefix)
instead of failing with `InvalidMigrationFile`: Go's `Sscanf "%d"` ignores
trailing characters after the digits. -/
theorem claim_C5_counterexample :
    (("1ab_x.sql").toList.takeWhile (fun c => decide (c ≠ '_'))).asString = "1ab" ∧
    goSscanfInt "1ab" = some 1 ∧
    readMigrations c5m = .ok
      [{ version := 1, fname := "1ab_x.sql", statements := ["SELECT 1;"],
         hash := "17db4fd369edb9244b9f91d9aeed145c3d04ad8ba6e95d06247f07a63527d11a" }] := by
  refine ⟨by decide, by decide, by decide⟩

/-- **C5 amended**: a migration filename lacking a `_` separator, or whose
prefix before the first `_` does not begin with a decimal integer (an
optional sign followed by at least one digit, after optional leading
whitespace), or whose parsed version equals zero, makes `readMigrations`
fail with `InvalidMigrationFile`.  (A prefix that begins with an integer
but carries trailing non-digit characters, such as `1ab`, is accepted.) -/
theorem claim_C5_amended_bad_names (m : Migrator) (files : List String) (f : String)
    (hl : listFiles m.folder = .ok files) (hf : f ∈ files) (hbad : badName f) :
    ∃ msg, readMigrations m = .error (.invalidMigrationFile msg) := by
  have hread : ∀ g ∈ files, ∃ c, readFileFS m.folder g = .ok c := fun g hg =>
    readFileFS_ok_of_mem m.folder g (listFiles_ok_mem m.folder files hl g hg)
  obtain ⟨msg, hmsg⟩ :=
    readMigrationFiles_err_of_badName m.folder files f hread hf hbad
  refine ⟨msg, ?_⟩
  rw [readMigrations, hl]
  simp only []
  rw [hmsg]

/-- Concrete migrator whose only file has version 0. -/
def c5wm : Migrator :=
  { migrationsTable := "schema_migrations",
    folder := [{ ename := "0_x.sql", isDir := false, content := "SELECT 0;" }],
    qvalidator := none, inTransaction := false }

theorem claim_C5_witness :
    ∃ msg, readMigrations c5wm = .error (.invalidMigrationFile msg) :=
  claim_C5_amended_bad_names c5wm ["0_x.sql"] "0_x.sql"
    (by decide) (by decide) (by decide)

/-- **C7**: with a non-empty suffix to apply, `Migrate` validates the
whole batch before any execution: a batch-validation failure is returned
(wrapped as `InvalidQuery`, since every migration read from disk has at
least one statement) and `ApplyMigrations` never appears in the trace;
when a validator is configured and the batch validates, the trace is
exactly one `validateQuery` call per statement, at the store's dialect, in
batch order, followed by the single `ApplyMigrations` call. -/
theorem claim_C7_validation (m : Migrator) (d : Driver)
    (localM applied : List Migration)
    (hc : d.createTableErr = none) (hr : readMigrations m = .ok localM)
    (hs : d.selectResult = .ok applied)
    (hle : applied.length ≤ localM.length)
    (hall : ∀ i, i < applied.length → i < localM.length →
      (applied.getD i mdef).version = (localM.getD i mdef).version ∧
      (applied.getD i mdef).hash = (localM.getD i mdef).hash)
    (hne : localM.drop applied.length ≠ []) :
    (∀ e, (validateBatch m d.dialect (localM.drop applied.length)).1 = some e →
      (Migrate m d).1 = .error e ∧
      (∀ t tx b, Event.applyMigrations t tx b ∉ (Migrate m d).2) ∧
      ∃ fn msg, e = .invalidQuery fn msg) ∧
    (∀ v, m.qvalidator = some v →
      (validateBatch m d.dialect (localM.drop applied.length)).1 = none →
      (Migrate m d).2 =
        evs0 m ++ statementEvents d.dialect (localM.drop applied.length) ++
        [.applyMigrations m.migrationsTable m.inTransaction
          (localM.drop applied.length)]) := by
  have hnone : checkSync applied localM = none :=
    (checkSync_none_iff applied localM).mpr hall
  have hcore := Migrate_core m d localM applied hc hr hs
  rw [if_neg (by omega), hnone] at hcore
  constructor
  · intro e he
    have hac := afterCheck_valErr m d (localM.drop applied.length) e hne he
    refine ⟨?_, ?_, ?_⟩
    · rw [hcore, hac]
    · intro t tx b hmem
      rw [hcore, hac] at hmem
      simp only [List.mem_append] at hmem
      rcases hmem with hmem | hmem
      · simp [evs0] at hmem
      · obtain ⟨q, hq⟩ :=
          validateBatch_events m d.dialect (localM.drop applied.length) _ hmem
        simp at hq
    · refine validateBatch_fst_some m d.dialect (localM.drop applied.length) e he ?_
      intro mg hmg
      exact readMigrations_ok_statements m localM hr mg (List.drop_subset _ _ hmg)
  · intro v hv hok
    rw [hcore, afterCheck_valOk m d (localM.drop applied.length) hne hok]
    simp only []
    rw [validateBatch_none_events m d.dialect v hv (localM.drop applied.length) hok]
    simp

/-- Concrete migrator for the C7 witness: one migration whose statement
the configured validator rejects. -/
def c7m : Migrator :=
  { migrationsTable := "schema_migrations",
    folder := [{ ename := "1_a.sql", isDir := false, content := "BAD" }],
    qvalidator := some (fun _ q => if q = "BAD" then some "bad statement" else none),
    inTransaction := false }

/-- The local migration list of `c7m`. -/
def c7local : List Migration :=
  [{ version := 1, fname := "1_a.sql", statements := ["BAD"],
     hash := computeHash (strBytes "BAD") }]

/-- Store behaviour for the C7 witness: no applied history. -/
def c7d : Driver :=
  { dialect := "sqlite", createTableErr := none, selectResult := .ok [], applyErr := none }

theorem claim_C7_witness :
    (Migrate c7m c7d).1 = .error (.invalidQuery "1_a.sql" "bad statement") ∧
    (∀ t tx b, Event.applyMigrations t tx b ∉ (Migrate c7m c7d).2) ∧
    ∃ fn msg, (Err.invalidQuery "1_a.sql" "bad statement") = .invalidQuery fn msg :=
  (claim_C7_validation c7m c7d c7local [] rfl (by decide) rfl (by decide)
      (fun i h1 _ => absurd h1 (by simp)) (by decide)).1
    (.invalidQuery "1_a.sql" "bad statement") (by decide)

end Simplemigrate
